import Mathlib

/-!
Shallow embedding of the withdrawal-finalizer storage layer
(src/storage/src/lib.rs).

The two persisted tables are modelled as follows:

* `l2_blocks` is a keyed table with primary key `l2_block_number` (a
  Postgres `bigint`, i.e. an `i64`); it is modelled as a total map
  `Int → Option L2Row`.
* `withdrawals` is modelled as a `List WithdrawalRow` in insertion
  order; the SQL `ORDER BY` is modelled as a stable insertion sort and
  `LIMIT`/`MAX` as `take`/a fold with `max`.

Rust integer casts (`u64 as i64`, `usize as i32`, `i64 as u64`,
`i32 as usize`) are wrapping two-complement reinterpretations and are
modelled explicitly by `natAsI64`, `natAsI32`, `intAsU64` and
`intAsUsize`. The `numeric` amount column stores the exact decimal
image of the 256-bit amount; since the codec is lossless the column is
modelled by its natural-number preimage.
-/

/-- Rust cast `u64 as i64`: wrapping two-complement reinterpretation of a
natural number as a 64-bit signed integer. -/
def natAsI64 (n : Nat) : Int :=
  if n % 2 ^ 64 < 2 ^ 63 then ((n % 2 ^ 64 : Nat) : Int)
  else ((n % 2 ^ 64 : Nat) : Int) - 2 ^ 64

/-- Rust cast `usize as i32`: wrapping two-complement reinterpretation of a
natural number as a 32-bit signed integer. -/
def natAsI32 (n : Nat) : Int :=
  if n % 2 ^ 32 < 2 ^ 31 then ((n % 2 ^ 32 : Nat) : Int)
  else ((n % 2 ^ 32 : Nat) : Int) - 2 ^ 32

/-- Rust cast `i64 as u64` (also `i32 as usize` after sign extension):
reduction modulo `2 ^ 64` into a natural number. -/
def intAsU64 (i : Int) : Nat := (i % 2 ^ 64).toNat

/-- Rust cast `i32 as usize` on a 64-bit platform: sign-extend, then
reinterpret as an unsigned 64-bit value. -/
def intAsUsize (i : Int) : Nat := intAsU64 i

/-- One row of the `l2_blocks` table: the three phase columns are
independently nullable `bigint` values. -/
structure L2Row where
  commit_l1_block_number : Option Int
  verify_l1_block_number : Option Int
  execute_l1_block_number : Option Int
deriving DecidableEq

/-- The `l2_blocks` table, keyed by the `bigint` primary key
`l2_block_number`. -/
def L2Blocks : Type := Int → Option L2Row

/-- The empty `l2_blocks` table. -/
def emptyL2Blocks : L2Blocks := fun _ => none

/-- `committed_new_batch`: upsert of `commit_l1_block_number` over the
inclusive `i64` range obtained from the two `u64` bounds.  For a key
inside the range: if a row exists only its commit column is replaced,
otherwise a fresh row with null verify/execute columns is inserted. -/
def committed_new_batch (s : L2Blocks) (batch_start batch_end l1_block_number : Nat) :
    L2Blocks := fun k =>
  if natAsI64 batch_start ≤ k ∧ k ≤ natAsI64 batch_end then
    some { commit_l1_block_number := some (natAsI64 l1_block_number)
           verify_l1_block_number := (s k).bind L2Row.verify_l1_block_number
           execute_l1_block_number := (s k).bind L2Row.execute_l1_block_number }
  else s k

/-- `verified_new_batch`: same upsert targeting `verify_l1_block_number`. -/
def verified_new_batch (s : L2Blocks) (batch_start batch_end l1_block_number : Nat) :
    L2Blocks := fun k =>
  if natAsI64 batch_start ≤ k ∧ k ≤ natAsI64 batch_end then
    some { commit_l1_block_number := (s k).bind L2Row.commit_l1_block_number
           verify_l1_block_number := some (natAsI64 l1_block_number)
           execute_l1_block_number := (s k).bind L2Row.execute_l1_block_number }
  else s k

/-- `executed_new_batch`: same upsert targeting `execute_l1_block_number`. -/
def executed_new_batch (s : L2Blocks) (batch_start batch_end l1_block_number : Nat) :
    L2Blocks := fun k =>
  if natAsI64 batch_start ≤ k ∧ k ≤ natAsI64 batch_end then
    some { commit_l1_block_number := (s k).bind L2Row.commit_l1_block_number
           verify_l1_block_number := (s k).bind L2Row.verify_l1_block_number
           execute_l1_block_number := some (natAsI64 l1_block_number) }
  else s k

/-- `client::WithdrawalEvent`: `tx_hash` stands for the 32-byte `H256`,
`token` for the 20-byte `H160`, `amount` for the `U256` value; byte
strings are modelled by their (injective) numeric images. -/
structure WithdrawalEvent where
  tx_hash : Nat
  block_number : Nat
  token : Nat
  amount : Nat
deriving DecidableEq

/-- `StoredWithdrawal`: an event together with its index in the
transaction and the finalized flag. -/
structure StoredWithdrawal where
  event : WithdrawalEvent
  index_in_tx : Nat
  is_finalized : Bool
deriving DecidableEq

/-- One row of the `withdrawals` table, with the column types of the
schema: `l2_block_number` is a `bigint`, `event_index_in_tx` an
`integer` (`i32`), `amount` the exact decimal image of the `U256`. -/
structure WithdrawalRow where
  tx_hash : Nat
  l2_block_number : Int
  token : Nat
  amount : Nat
  event_index_in_tx : Int
  is_finalized : Bool
deriving DecidableEq

/-- The row that `add_withdrawals` builds from a `StoredWithdrawal`:
`block_number as i64`, `index_in_tx as i32`, amount through
`u256_to_big_decimal` (lossless). -/
def storedToRow (sw : StoredWithdrawal) : WithdrawalRow :=
  { tx_hash := sw.event.tx_hash
    l2_block_number := natAsI64 sw.event.block_number
    token := sw.event.token
    amount := sw.event.amount
    event_index_in_tx := natAsI32 sw.index_in_tx
    is_finalized := sw.is_finalized }

/-- The conflict key of the `withdrawals` table:
`(tx_hash, event_index_in_tx)`. -/
def rowKey (r : WithdrawalRow) : Nat × Int := (r.tx_hash, r.event_index_in_tx)

/-- Whether the table already holds a row with the given conflict key. -/
def hasKey (t : List WithdrawalRow) (k : Nat × Int) : Bool :=
  t.any fun r => r.tx_hash == k.1 && r.event_index_in_tx == k.2

/-- One row of the bulk insert of `add_withdrawals`:
`ON CONFLICT (tx_hash, event_index_in_tx) DO NOTHING`. -/
def addStep (t : List WithdrawalRow) (sw : StoredWithdrawal) : List WithdrawalRow :=
  if hasKey t (rowKey (storedToRow sw)) then t else t ++ [storedToRow sw]

/-- `add_withdrawals`: bulk insert of the events in order, skipping every
row whose conflict key is already present. -/
def add_withdrawals (table : List WithdrawalRow) (events : List StoredWithdrawal) :
    List WithdrawalRow :=
  events.foldl addStep table

/-- The decoding of a row performed by `unfinalized_withdrawals`:
`l2_block_number as u64`, `event_index_in_tx as usize`,
amount through `bigdecimal_to_u256`. -/
def rowToStored (r : WithdrawalRow) : StoredWithdrawal :=
  { event :=
      { tx_hash := r.tx_hash
        block_number := intAsU64 r.l2_block_number
        token := r.token
        amount := r.amount }
    index_in_tx := intAsUsize r.event_index_in_tx
    is_finalized := r.is_finalized }

/-- The `ORDER BY l2_block_number ASC` comparison on rows. -/
def rowLe (a b : WithdrawalRow) : Prop :=
  a.l2_block_number ≤ b.l2_block_number

instance : DecidableRel rowLe :=
  fun a b => inferInstanceAs (Decidable (a.l2_block_number ≤ b.l2_block_number))

instance : IsTotal WithdrawalRow rowLe :=
  ⟨fun a b => Int.le_total a.l2_block_number b.l2_block_number⟩

instance : IsTrans WithdrawalRow rowLe :=
  ⟨fun _ _ _ hab hbc => le_trans hab hbc⟩

/-- The row set produced by the query of `unfinalized_withdrawals`:
`WHERE NOT is_finalized ORDER BY l2_block_number ASC LIMIT 30`. -/
def unfinalized_rows (table : List WithdrawalRow) : List WithdrawalRow :=
  ((table.filter fun r => !r.is_finalized).insertionSort rowLe).take 30

/-- `unfinalized_withdrawals`: the bounded scan for finalization
candidates, decoded back into `StoredWithdrawal` values. -/
def unfinalized_withdrawals (table : List WithdrawalRow) : List StoredWithdrawal :=
  (unfinalized_rows table).map rowToStored

/-- Whether a row is matched by the key list handed to
`update_withdrawals_to_finalized` (each `usize` index is cast
`as i32` before comparison, as in the source). -/
def matchesKeys (keys : List (Nat × Nat)) (r : WithdrawalRow) : Bool :=
  keys.any fun k => k.1 == r.tx_hash && natAsI32 k.2 == r.event_index_in_tx

/-- `update_withdrawals_to_finalized`: set `is_finalized = true` on every
row whose `(tx_hash, event_index_in_tx)` matches the key list. -/
def update_withdrawals_to_finalized (table : List WithdrawalRow)
    (keys : List (Nat × Nat)) : List WithdrawalRow :=
  table.map fun r =>
    if matchesKeys keys r then { r with is_finalized := true } else r

/-- The join of `withdrawals` with `l2_blocks` on
`l2_blocks.l2_block_number = withdrawals.l2_block_number` restricted by
`WHERE withdrawals.tx_hash = $1`, in table order; this is the row
sequence that `fetch_optional` reads the first row of. -/
def joined_lifecycle_rows (wt : List WithdrawalRow) (l2 : L2Blocks) (hsh : Nat) :
    List L2Row :=
  wt.filterMap fun w => if w.tx_hash == hsh then l2 w.l2_block_number else none

/-- `withdrawal_committed_in_block`: commit column of the first joined
row, if any. -/
def withdrawal_committed_in_block (wt : List WithdrawalRow) (l2 : L2Blocks)
    (hsh : Nat) : Option Int :=
  (joined_lifecycle_rows wt l2 hsh).head?.bind L2Row.commit_l1_block_number

/-- `withdrawal_verified_in_block`: verify column of the first joined
row, if any. -/
def withdrawal_verified_in_block (wt : List WithdrawalRow) (l2 : L2Blocks)
    (hsh : Nat) : Option Int :=
  (joined_lifecycle_rows wt l2 hsh).head?.bind L2Row.verify_l1_block_number

/-- `withdrawal_executed_in_block`: execute column of the first joined
row, if any. -/
def withdrawal_executed_in_block (wt : List WithdrawalRow) (l2 : L2Blocks)
    (hsh : Nat) : Option Int :=
  (joined_lifecycle_rows wt l2 hsh).head?.bind L2Row.execute_l1_block_number

/-- SQL `MAX` aggregate over a `bigint` column: null on the empty table,
otherwise the maximum. -/
def sqlMax : List Int → Option Int
  | [] => none
  | x :: xs => some (xs.foldl max x)

/-- `last_l2_block_seen`: `SELECT MAX(l2_block_number) FROM withdrawals`,
cast back `as u64`. -/
def last_l2_block_seen (wt : List WithdrawalRow) : Option Nat :=
  (sqlMax (wt.map WithdrawalRow.l2_block_number)).map intAsU64

/-- Modelled from the spec: the error of the numeric codec in
`src/storage/src/utils.rs`, a file that is not among the provided
sources.  Decoding fails on a negative, non-integral, or
out-of-range decimal. -/
inductive ConversionError where
  | negative
  | nonIntegral
  | overflow
deriving DecidableEq

/-- Modelled from the spec: `utils::u256_to_big_decimal`
(src/storage/src/utils.rs is not among the provided sources).  The
total, lossless embedding of an unsigned 256-bit value into an
arbitrary-precision decimal, modelled as an exact rational. -/
def u256_to_big_decimal (v : Nat) : Rat := (v : Rat)

/-- Modelled from the spec: `utils::bigdecimal_to_u256`
(src/storage/src/utils.rs is not among the provided sources).  Decoding
rejects a negative, non-integral, or out-of-range decimal with a
`ConversionError` and otherwise returns the unsigned 256-bit value. -/
def bigdecimal_to_u256 (q : Rat) : Except ConversionError Nat :=
  if q.num < 0 then .error .negative
  else if q.den ≠ 1 then .error .nonIntegral
  else if 2 ^ 256 ≤ q.num then .error .overflow
  else .ok q.num.toNat

/-- The candidate scan as the specification words it: the bounded scan
over unfinalized withdrawals joined against the Block Lifecycle Store
(inner join on `l2_block_number`), for comparison with the scan the
source actually performs. -/
def unfinalized_withdrawals_join_model (table : List WithdrawalRow)
    (l2 : L2Blocks) : List StoredWithdrawal :=
  (((((table.filter fun r => !r.is_finalized).filter
      fun r => (l2 r.l2_block_number).isSome).insertionSort rowLe).take 30).map
    rowToStored)

/-- Concrete state for C1: one unfinalized withdrawal at L2 block 5,
while `l2_blocks` is empty. -/
def c1Table : List WithdrawalRow :=
  [{ tx_hash := 1, l2_block_number := 5, token := 2, amount := 3,
     event_index_in_tx := 0, is_finalized := false }]

/-- Concrete event for C3. -/
def c3Event : StoredWithdrawal :=
  { event := { tx_hash := 1, block_number := 5, token := 2, amount := 3 },
    index_in_tx := 0, is_finalized := false }

/-- Concrete table of 50 unfinalized withdrawal rows for C4. -/
def c4Table : List WithdrawalRow :=
  (List.range 50).map fun i =>
    { tx_hash := i, l2_block_number := (i : Int), token := 0, amount := 0,
      event_index_in_tx := 0, is_finalized := false }

/-- The record at L2 block 0 of `c4Table`, as returned by the scan. -/
def c4Member : StoredWithdrawal :=
  { event := { tx_hash := 0, block_number := 0, token := 0, amount := 0 },
    index_in_tx := 0, is_finalized := false }

/-- Concrete two-row table for C5: the first row is keyed `(7, 0)`, the
second `(8, 1)`. -/
def c5Table : List WithdrawalRow :=
  [{ tx_hash := 7, l2_block_number := 1, token := 0, amount := 0,
     event_index_in_tx := 0, is_finalized := false },
   { tx_hash := 8, l2_block_number := 2, token := 0, amount := 0,
     event_index_in_tx := 1, is_finalized := false }]

/-- The record keyed `(8, 1)` that survives `finalize([(7, 0)])` in C5. -/
def c5Survivor : StoredWithdrawal :=
  { event := { tx_hash := 8, block_number := 2, token := 0, amount := 0 },
    index_in_tx := 1, is_finalized := false }

/-- First ingested event for C6, with amount 100. -/
def c6First : StoredWithdrawal :=
  { event := { tx_hash := 9, block_number := 4, token := 1, amount := 100 },
    index_in_tx := 0, is_finalized := false }

/-- Conflicting event for C6: same key as `c6First`, amount 200. -/
def c6Second : StoredWithdrawal :=
  { event := { tx_hash := 9, block_number := 4, token := 1, amount := 200 },
    index_in_tx := 0, is_finalized := false }

/-- The table holding only `c6First`. -/
def c6Table : List WithdrawalRow := add_withdrawals [] [c6First]

/-- C7 scenario: the withdrawals table after ingesting
`(tx=0xAA, block=10, token=0xBB, amount=100, index=0)`. -/
def c7Table : List WithdrawalRow :=
  add_withdrawals []
    [{ event := { tx_hash := 170, block_number := 10, token := 187, amount := 100 },
       index_in_tx := 0, is_finalized := false }]

/-- C7 scenario: `l2_blocks` after `record_phase(commit, [10,10], 500)`. -/
def c7Blocks : L2Blocks := committed_new_batch emptyL2Blocks 10 10 500

/-- Concrete event at L2 block 42 for C9. -/
def c9Event : StoredWithdrawal :=
  { event := { tx_hash := 3, block_number := 42, token := 0, amount := 0 },
    index_in_tx := 0, is_finalized := false }

/-- Concrete non-empty table for C9. -/
def c9Table : List WithdrawalRow :=
  [{ tx_hash := 3, l2_block_number := 7, token := 0, amount := 0,
     event_index_in_tx := 0, is_finalized := false }]

lemma hasKey_append_self (t : List WithdrawalRow) (r : WithdrawalRow) :
    hasKey (t ++ [r]) (rowKey r) = true := by
  simp only [hasKey, rowKey, List.any_eq_true]
  exact ⟨r, by simp, by simp⟩

lemma addStep_hasKey_self (t : List WithdrawalRow) (sw : StoredWithdrawal) :
    hasKey (addStep t sw) (rowKey (storedToRow sw)) = true := by
  unfold addStep
  split
  · assumption
  · exact hasKey_append_self t (storedToRow sw)

lemma hasKey_addStep_mono (t : List WithdrawalRow) (sw : StoredWithdrawal)
    (k : Nat × Int) (h : hasKey t k = true) : hasKey (addStep t sw) k = true := by
  unfold addStep
  split
  · exact h
  · simp only [hasKey, List.any_eq_true] at h ⊢
    obtain ⟨r, hr, hp⟩ := h
    exact ⟨r, List.mem_append_left _ hr, hp⟩

lemma hasKey_add_mono (es : List StoredWithdrawal) :
    ∀ (t : List WithdrawalRow) (k : Nat × Int), hasKey t k = true →
      hasKey (add_withdrawals t es) k = true := by
  induction es with
  | nil => intro t k h; exact h
  | cons sw es ih =>
    intro t k h
    simp only [add_withdrawals, List.foldl_cons]
    exact ih (addStep t sw) k (hasKey_addStep_mono t sw k h)

lemma hasKey_mem_add (es : List StoredWithdrawal) :
    ∀ (t : List WithdrawalRow) (sw : StoredWithdrawal), sw ∈ es →
      hasKey (add_withdrawals t es) (rowKey (storedToRow sw)) = true := by
  induction es with
  | nil => intro t sw h; cases h
  | cons sw0 es ih =>
    intro t sw hmem
    simp only [add_withdrawals, List.foldl_cons]
    rcases List.mem_cons.mp hmem with heq | hmem2
    · subst heq
      exact hasKey_add_mono es (addStep t sw) _ (addStep_hasKey_self t sw)
    · exact ih (addStep t sw0) sw hmem2

lemma addStep_of_hasKey (t : List WithdrawalRow) (sw : StoredWithdrawal)
    (h : hasKey t (rowKey (storedToRow sw)) = true) : addStep t sw = t := by
  unfold addStep
  simp [h]

lemma add_of_all_hasKey (es : List StoredWithdrawal) :
    ∀ t : List WithdrawalRow,
      (∀ sw ∈ es, hasKey t (rowKey (storedToRow sw)) = true) →
      add_withdrawals t es = t := by
  induction es with
  | nil => intro t _; rfl
  | cons sw es ih =>
    intro t h
    simp only [add_withdrawals, List.foldl_cons]
    rw [addStep_of_hasKey t sw (h sw (by simp))]
    exact ih t fun sw2 hm => h sw2 (by simp [hm])

/-- C3: ingesting the identical event sequence twice leaves the
withdrawals table in the same final state as ingesting it once, and
after one call the conflict key of every event of the batch is present
in the table (duplicates are skipped, all others inserted). -/
theorem spec_C3 (table : List WithdrawalRow) (events : List StoredWithdrawal) :
    add_withdrawals (add_withdrawals table events) events = add_withdrawals table events
    ∧ ∀ sw ∈ events,
        hasKey (add_withdrawals table events) (rowKey (storedToRow sw)) = true := by
  constructor
  · exact add_of_all_hasKey events _ fun sw hm => hasKey_mem_add events table sw hm
  · exact fun sw hm => hasKey_mem_add events table sw hm

/-- C3 witness at a concrete batch. -/
theorem spec_C3_witness :
    add_withdrawals (add_withdrawals [] [c3Event]) [c3Event] = add_withdrawals [] [c3Event]
    ∧ hasKey (add_withdrawals [] [c3Event]) (rowKey (storedToRow c3Event)) = true :=
  ⟨(spec_C3 [] [c3Event]).1, (spec_C3 [] [c3Event]).2 c3Event (by decide)⟩

/-- C6: ingesting a record whose conflict key is already stored is a
no-op, so the stored record and in particular its first-inserted
amount are kept unchanged. -/
theorem spec_C6 (table : List WithdrawalRow) (sw : StoredWithdrawal)
    (h : hasKey table (rowKey (storedToRow sw)) = true) :
    add_withdrawals table [sw] = table := by
  simp only [add_withdrawals, List.foldl_cons, List.foldl_nil]
  exact addStep_of_hasKey table sw h

/-- C6 witness: the second event has the same key and a different
amount, and the table is unchanged. -/
theorem spec_C6_witness :
    hasKey c6Table (rowKey (storedToRow c6Second)) = true
    ∧ c6First.event.amount ≠ c6Second.event.amount
    ∧ add_withdrawals c6Table [c6Second] = c6Table :=
  ⟨by decide, by decide, spec_C6 c6Table c6Second (by decide)⟩

lemma unfinalized_rows_subperm (t : List WithdrawalRow) :
    (unfinalized_rows t).Subperm (t.filter fun r => !r.is_finalized) := by
  unfold unfinalized_rows
  exact ((List.take_sublist _ _).subperm).trans (List.perm_insertionSort rowLe _).subperm

lemma mem_filter_of_mem_unfinalized_rows {t : List WithdrawalRow}
    {r : WithdrawalRow} (h : r ∈ unfinalized_rows t) :
    r ∈ t ∧ r.is_finalized = false := by
  have h2 : r ∈ t.filter fun r => !r.is_finalized :=
    (unfinalized_rows_subperm t).subset h
  rw [List.mem_filter] at h2
  exact ⟨h2.1, by simpa using h2.2⟩

lemma length_unfinalized_rows (t : List WithdrawalRow) :
    (unfinalized_rows t).length = min 30 (t.filter fun r => !r.is_finalized).length := by
  unfold unfinalized_rows
  rw [List.length_take, (List.perm_insertionSort rowLe _).length_eq]

/-- C1 (amended): every record returned by `unfinalized_withdrawals` is
produced by a bounded scan (at most 30 rows) of the withdrawals table
alone, filtered on the `is_finalized` flag; the candidate rows are a
sub-permutation of the unfinalized rows of the table, and the lifecycle
store is never consulted. -/
theorem spec_C1 (table : List WithdrawalRow) :
    (unfinalized_rows table).Subperm (table.filter fun r => !r.is_finalized)
    ∧ unfinalized_withdrawals table = (unfinalized_rows table).map rowToStored
    ∧ (unfinalized_withdrawals table).length ≤ 30 := by
  refine ⟨unfinalized_rows_subperm table, rfl, ?_⟩
  rw [unfinalized_withdrawals, List.length_map, length_unfinalized_rows]
  exact min_le_left _ _

/-- C1 counterexample: with one unfinalized withdrawal at L2 block 5 and
an empty Block Lifecycle Store, the source query still returns the
record, while the scan the specification describes (joined against the
Block Lifecycle Store) returns nothing; the candidate selection
consults only the `is_finalized` flag. -/
theorem spec_C1_counterexample :
    (unfinalized_withdrawals c1Table).length = 1
    ∧ (unfinalized_withdrawals_join_model c1Table emptyL2Blocks).length = 0
    ∧ unfinalized_withdrawals c1Table
        ≠ unfinalized_withdrawals_join_model c1Table emptyL2Blocks := by
  decide

/-- C4: the finalization-candidate scan returns only records with
`is_finalized = false`, in ascending `l2_block_number` order, capped at
30 records; with 50 unfinalized rows present it returns exactly 30. -/
theorem spec_C4 (table : List WithdrawalRow) :
    List.Sorted rowLe (unfinalized_rows table)
    ∧ (∀ s ∈ unfinalized_withdrawals table, s.is_finalized = false)
    ∧ (unfinalized_withdrawals table).length ≤ 30
    ∧ ((table.filter fun r => !r.is_finalized).length = 50 →
        (unfinalized_withdrawals table).length = 30) := by
  refine ⟨?_, ?_, ?_, ?_⟩
  · exact List.Pairwise.sublist (List.take_sublist _ _)
      (List.sorted_insertionSort rowLe _)
  · intro s hs
    rw [unfinalized_withdrawals, List.mem_map] at hs
    obtain ⟨r, hr, hrs⟩ := hs
    have hf := (mem_filter_of_mem_unfinalized_rows hr).2
    rw [← hrs]
    simpa [rowToStored] using hf
  · rw [unfinalized_withdrawals, List.length_map, length_unfinalized_rows]
    exact min_le_left _ _
  · intro h50
    rw [unfinalized_withdrawals, List.length_map, length_unfinalized_rows, h50]
    norm_num

/-- C4 witness: 50 unfinalized rows give exactly 30 candidates, and the
record at block 0 is among them with its flag false. -/
theorem spec_C4_witness :
    (c4Table.filter fun r => !r.is_finalized).length = 50
    ∧ (unfinalized_withdrawals c4Table).length = 30
    ∧ c4Member ∈ unfinalized_withdrawals c4Table
    ∧ c4Member.is_finalized = false :=
  ⟨by decide, (spec_C4 c4Table).2.2.2 (by decide), by decide,
   (spec_C4 c4Table).2.1 c4Member (by decide)⟩

lemma committed_apply (s : L2Blocks) (bs be l1 : Nat) (k : Int) :
    committed_new_batch s bs be l1 k =
      if natAsI64 bs ≤ k ∧ k ≤ natAsI64 be then
        some { commit_l1_block_number := some (natAsI64 l1)
               verify_l1_block_number := (s k).bind L2Row.verify_l1_block_number
               execute_l1_block_number := (s k).bind L2Row.execute_l1_block_number }
      else s k := rfl

lemma committed_preserves (s : L2Blocks) (bs be l1 : Nat) (k : Int) :
    ((committed_new_batch s bs be l1) k).bind L2Row.verify_l1_block_number
        = (s k).bind L2Row.verify_l1_block_number
    ∧ ((committed_new_batch s bs be l1) k).bind L2Row.execute_l1_block_number
        = (s k).bind L2Row.execute_l1_block_number := by
  unfold committed_new_batch
  split
  · simp
  · exact ⟨rfl, rfl⟩

/-- C2: with `start ≤ end`, calling `committed_new_batch` twice with
identical arguments yields the same `l2_blocks` state as calling it
once; a further call over the same range with a different
`l1_block_number` gives every key of the (cast) range a row whose
commit column holds the new value, while the verify and execute columns
of every key are left exactly as they were before any of the calls. -/
theorem spec_C2 (s : L2Blocks) (bs be l1 l1' : Nat) (_hle : bs ≤ be) (_hne : l1 ≠ l1') :
    committed_new_batch (committed_new_batch s bs be l1) bs be l1
      = committed_new_batch s bs be l1
    ∧ (∀ k : Int, natAsI64 bs ≤ k → k ≤ natAsI64 be →
        ∃ r, committed_new_batch (committed_new_batch s bs be l1) bs be l1' k = some r
          ∧ r.commit_l1_block_number = some (natAsI64 l1'))
    ∧ (∀ k : Int,
        (committed_new_batch (committed_new_batch s bs be l1) bs be l1' k).bind
            L2Row.verify_l1_block_number = (s k).bind L2Row.verify_l1_block_number
        ∧ (committed_new_batch (committed_new_batch s bs be l1) bs be l1' k).bind
            L2Row.execute_l1_block_number
          = (s k).bind L2Row.execute_l1_block_number) := by
  refine ⟨funext fun k => ?_, fun k h1 h2 => ?_, fun k => ?_⟩
  · by_cases h : natAsI64 bs ≤ k ∧ k ≤ natAsI64 be
    · rw [committed_apply (committed_new_batch s bs be l1) bs be l1 k, if_pos h,
        (committed_preserves s bs be l1 k).1, (committed_preserves s bs be l1 k).2,
        committed_apply s bs be l1 k, if_pos h]
    · rw [committed_apply (committed_new_batch s bs be l1) bs be l1 k, if_neg h]
  · rw [committed_apply (committed_new_batch s bs be l1) bs be l1' k, if_pos ⟨h1, h2⟩]
    exact ⟨_, rfl, rfl⟩
  · constructor
    · rw [(committed_preserves (committed_new_batch s bs be l1) bs be l1' k).1,
        (committed_preserves s bs be l1 k).1]
    · rw [(committed_preserves (committed_new_batch s bs be l1) bs be l1' k).2,
        (committed_preserves s bs be l1 k).2]

/-- C2 witness at the concrete range and values of the specification. -/
theorem spec_C2_witness :
    committed_new_batch (committed_new_batch emptyL2Blocks 100 105 50) 100 105 50
      = committed_new_batch emptyL2Blocks 100 105 50
    ∧ (∃ r,
        committed_new_batch (committed_new_batch emptyL2Blocks 100 105 50) 100 105 51 102
          = some r
        ∧ r.commit_l1_block_number = some (natAsI64 51))
    ∧ (committed_new_batch (committed_new_batch emptyL2Blocks 100 105 50) 100 105 51 102).bind
        L2Row.verify_l1_block_number = (emptyL2Blocks 102).bind L2Row.verify_l1_block_number :=
  ⟨(spec_C2 emptyL2Blocks 100 105 50 51 (by norm_num) (by norm_num)).1,
   (spec_C2 emptyL2Blocks 100 105 50 51 (by norm_num) (by norm_num)).2.1 102
     (by decide) (by decide),
   ((spec_C2 emptyL2Blocks 100 105 50 51 (by norm_num) (by norm_num)).2.2 102).1⟩

lemma natAsI64_of_lt (n : Nat) (h : n < 2 ^ 63) : natAsI64 n = (n : Int) := by
  unfold natAsI64
  have h1 : n % 2 ^ 64 = n := Nat.mod_eq_of_lt (lt_trans h (by norm_num))
  rw [h1, if_pos h]

/-- C10 (amended): for each of the three phase-recording operations, a
call with `batch_end < batch_start` writes no rows when `batch_start`
is representable as an `i64` (below `2 ^ 63`), because the constructed
inclusive `i64` range is then empty; without that bound the wrapping
`u64 as i64` cast can produce a non-empty range. -/
theorem spec_C10 (s : L2Blocks) (bs be l1 : Nat) (hgt : be < bs) (hbs : bs < 2 ^ 63) :
    committed_new_batch s bs be l1 = s
    ∧ verified_new_batch s bs be l1 = s
    ∧ executed_new_batch s bs be l1 = s := by
  have hbe : be < 2 ^ 63 := lt_trans hgt hbs
  have hcond : ∀ k : Int, ¬(natAsI64 bs ≤ k ∧ k ≤ natAsI64 be) := by
    intro k hk
    rw [natAsI64_of_lt bs hbs] at hk
    rw [natAsI64_of_lt be hbe] at hk
    have hle : (bs : Int) ≤ (be : Int) := le_trans hk.1 hk.2
    have : bs ≤ be := by exact_mod_cast hle
    exact absurd this (not_le.mpr hgt)
  refine ⟨funext fun k => ?_, funext fun k => ?_, funext fun k => ?_⟩
  · rw [committed_new_batch, if_neg (hcond k)]
  · rw [verified_new_batch, if_neg (hcond k)]
  · rw [executed_new_batch, if_neg (hcond k)]

/-- C10 counterexample: the claim as stated fails at
`batch_start = 2 ^ 63 > 0 = batch_end`; the wrapping cast makes the
range non-empty and the call inserts a row at key 0 into the empty
store instead of writing nothing. -/
theorem spec_C10_counterexample :
    (2 ^ 63 : Nat) > 0 ∧ emptyL2Blocks 0 = none
    ∧ committed_new_batch emptyL2Blocks (2 ^ 63) 0 7 0 ≠ none := by
  decide

/-- C10 witness: an in-range reversed call is a no-op for all three
operations. -/
theorem spec_C10_witness :
    ((0 : Nat) < 5 ∧ (5 : Nat) < 2 ^ 63)
    ∧ committed_new_batch emptyL2Blocks 5 0 7 = emptyL2Blocks
    ∧ verified_new_batch emptyL2Blocks 5 0 7 = emptyL2Blocks
    ∧ executed_new_batch emptyL2Blocks 5 0 7 = emptyL2Blocks :=
  ⟨⟨by norm_num, by norm_num⟩,
   (spec_C10 emptyL2Blocks 5 0 7 (by norm_num) (by norm_num)).1,
   (spec_C10 emptyL2Blocks 5 0 7 (by norm_num) (by norm_num)).2.1,
   (spec_C10 emptyL2Blocks 5 0 7 (by norm_num) (by norm_num)).2.2⟩

lemma natAsI32_zero : natAsI32 0 = 0 := by decide

lemma intAsU64_eq_zero (i : Int) (hlo : -2 ^ 31 ≤ i) (hhi : i < 2 ^ 31)
    (h : intAsU64 i = 0) : i = 0 := by
  unfold intAsU64 at h
  rw [Int.toNat_eq_zero] at h
  have h1 : 0 ≤ i % 2 ^ 64 := Int.emod_nonneg i (by norm_num)
  have h2 : i % 2 ^ 64 = 0 := le_antisymm h h1
  have h64 : (2 : Int) ^ 64 = 18446744073709551616 := by norm_num
  have h31 : (2 : Int) ^ 31 = 2147483648 := by norm_num
  rw [h64] at h2
  rw [h31] at hlo hhi
  omega

lemma set_finalized_idem (r : WithdrawalRow) (h : r.is_finalized = true) :
    ({ r with is_finalized := true } : WithdrawalRow) = r := by
  cases r
  simp_all

lemma update_get (table : List WithdrawalRow) (keys : List (Nat × Nat))
    (i : Nat) (h1 : i < table.length)
    (h2 : i < (update_withdrawals_to_finalized table keys).length) :
    (update_withdrawals_to_finalized table keys).get ⟨i, h2⟩
      = if matchesKeys keys (table.get ⟨i, h1⟩) then
          { table.get ⟨i, h1⟩ with is_finalized := true }
        else table.get ⟨i, h1⟩ := by
  simp [update_withdrawals_to_finalized, List.get_eq_getElem, List.getElem_map]

/-- C5: `update_withdrawals_to_finalized` sets `is_finalized = true` for
exactly the rows whose key is matched by the given key list; unmatched
keys touch nothing, already-finalized rows are unchanged, rows not
matched are not modified, and (for tables whose index column is in the
`i32` range of the schema) after finalizing key `(h, 0)` the candidate
scan never returns the record keyed `(h, 0)`. -/
theorem spec_C5 (table : List WithdrawalRow) (keys : List (Nat × Nat)) :
    (update_withdrawals_to_finalized table keys).length = table.length
    ∧ (∀ (i : Nat) (h1 : i < table.length)
        (h2 : i < (update_withdrawals_to_finalized table keys).length),
        (matchesKeys keys (table.get ⟨i, h1⟩) = true →
          (update_withdrawals_to_finalized table keys).get ⟨i, h2⟩
            = { table.get ⟨i, h1⟩ with is_finalized := true })
        ∧ (matchesKeys keys (table.get ⟨i, h1⟩) = false →
          (update_withdrawals_to_finalized table keys).get ⟨i, h2⟩
            = table.get ⟨i, h1⟩)
        ∧ ((table.get ⟨i, h1⟩).is_finalized = true →
          (update_withdrawals_to_finalized table keys).get ⟨i, h2⟩
            = table.get ⟨i, h1⟩))
    ∧ (∀ hsh : Nat,
        (∀ r ∈ table, -2 ^ 31 ≤ r.event_index_in_tx ∧ r.event_index_in_tx < 2 ^ 31) →
        ∀ s ∈ unfinalized_withdrawals (update_withdrawals_to_finalized table [(hsh, 0)]),
          ¬(s.event.tx_hash = hsh ∧ s.index_in_tx = 0)) := by
  refine ⟨by simp [update_withdrawals_to_finalized], fun i h1 h2 => ⟨?_, ?_, ?_⟩, ?_⟩
  · intro hm
    rw [update_get table keys i h1 h2, if_pos hm]
  · intro hm
    rw [update_get table keys i h1 h2, if_neg (ne_true_of_eq_false hm)]
  · intro hf
    rw [update_get table keys i h1 h2]
    split
    · exact set_finalized_idem _ hf
    · rfl
  · intro hsh hrange s hs hcon
    obtain ⟨htx, hidx⟩ := hcon
    rw [unfinalized_withdrawals, List.mem_map] at hs
    obtain ⟨r, hr, hrs⟩ := hs
    obtain ⟨hrt, hrf⟩ := mem_filter_of_mem_unfinalized_rows hr
    rw [update_withdrawals_to_finalized, List.mem_map] at hrt
    obtain ⟨r0, hr0, hr0r⟩ := hrt
    have hb := hrange r0 hr0
    have htx2 : r.tx_hash = hsh := by rw [← hrs] at htx; exact htx
    have hidx2 : intAsUsize r.event_index_in_tx = 0 := by rw [← hrs] at hidx; exact hidx
    cases hm : matchesKeys [(hsh, 0)] r0 with
    | true =>
      rw [← hr0r, if_pos hm] at hrf
      simp at hrf
    | false =>
      have hrr0 : r = r0 := by rw [← hr0r, if_neg (by simp [hm])]
      rw [hrr0] at htx2 hidx2
      have hz : r0.event_index_in_tx = 0 := intAsU64_eq_zero _ hb.1 hb.2 hidx2
      have hmt : matchesKeys [(hsh, 0)] r0 = true := by
        simp [matchesKeys, natAsI32_zero, htx2, hz]
      simp [hmt] at hm

/-- C5 witness: in a two-row table, finalizing key `(7, 0)` flips exactly
the first row, and the surviving candidate is not keyed `(7, 0)`. -/
theorem spec_C5_witness :
    matchesKeys [(7, 0)] (c5Table.get ⟨0, by decide⟩) = true
    ∧ (update_withdrawals_to_finalized c5Table [(7, 0)]).get ⟨0, by decide⟩
        = { c5Table.get ⟨0, by decide⟩ with is_finalized := true }
    ∧ c5Survivor ∈ unfinalized_withdrawals (update_withdrawals_to_finalized c5Table [(7, 0)])
    ∧ ¬(c5Survivor.event.tx_hash = 7 ∧ c5Survivor.index_in_tx = 0) :=
  ⟨by decide,
   ((spec_C5 c5Table [(7, 0)]).2.1 0 (by decide) (by decide)).1 (by decide),
   by decide,
   (spec_C5 c5Table [(7, 0)]).2.2 7 (by decide) c5Survivor (by decide)⟩

lemma joined_nil_of_no_tx (wt : List WithdrawalRow) (l2 : L2Blocks) (hsh : Nat)
    (h : ∀ w ∈ wt, w.tx_hash ≠ hsh) :
    joined_lifecycle_rows wt l2 hsh = [] := by
  rw [joined_lifecycle_rows, List.filterMap_eq_nil_iff]
  intro w hw
  simp [h w hw]

lemma committed_some_src (wt : List WithdrawalRow) (l2 : L2Blocks) (hsh : Nat)
    (v : Int) (h : withdrawal_committed_in_block wt l2 hsh = some v) :
    ∃ w ∈ wt, w.tx_hash = hsh
      ∧ ∃ b, l2 w.l2_block_number = some b ∧ b.commit_l1_block_number = some v := by
  unfold withdrawal_committed_in_block at h
  cases hh : (joined_lifecycle_rows wt l2 hsh).head? with
  | none => rw [hh] at h; cases h
  | some b =>
    rw [hh] at h
    simp only [Option.some_bind] at h
    have hb : b ∈ joined_lifecycle_rows wt l2 hsh :=
      List.mem_of_mem_head? (by rw [hh]; rfl)
    rw [joined_lifecycle_rows, List.mem_filterMap] at hb
    obtain ⟨w, hw, hwb⟩ := hb
    by_cases htx : (w.tx_hash == hsh) = true
    · rw [if_pos htx] at hwb
      exact ⟨w, hw, by simpa using htx, b, hwb, h⟩
    · rw [if_neg htx] at hwb
      cases hwb

/-- C7: the phase queries return the named phase column of the lifecycle
row joined to a withdrawal with the given transaction hash, and return
none when no such withdrawal exists or when the joined row's phase
column is unset; in the concrete scenario (ingest at block 10, then
commit over the range from 10 to 10 at L1 block 500) the commit query
returns 500 and the verify query returns none. -/
theorem spec_C7 :
    (∀ (wt : List WithdrawalRow) (l2 : L2Blocks) (hsh : Nat),
      ((∀ w ∈ wt, w.tx_hash ≠ hsh) →
        withdrawal_committed_in_block wt l2 hsh = none
        ∧ withdrawal_verified_in_block wt l2 hsh = none
        ∧ withdrawal_executed_in_block wt l2 hsh = none)
      ∧ (∀ b, (joined_lifecycle_rows wt l2 hsh).head? = some b →
          b.commit_l1_block_number = none →
          withdrawal_committed_in_block wt l2 hsh = none)
      ∧ (∀ v, withdrawal_committed_in_block wt l2 hsh = some v →
          ∃ w ∈ wt, w.tx_hash = hsh
            ∧ ∃ b, l2 w.l2_block_number = some b
              ∧ b.commit_l1_block_number = some v))
    ∧ withdrawal_committed_in_block c7Table c7Blocks 170 = some 500
    ∧ withdrawal_verified_in_block c7Table c7Blocks 170 = none := by
  refine ⟨fun wt l2 hsh => ⟨?_, ?_, fun v h => committed_some_src wt l2 hsh v h⟩,
    by decide, by decide⟩
  · intro h
    have hj := joined_nil_of_no_tx wt l2 hsh h
    refine ⟨?_, ?_, ?_⟩
    · rw [withdrawal_committed_in_block, hj]; rfl
    · rw [withdrawal_verified_in_block, hj]; rfl
    · rw [withdrawal_executed_in_block, hj]; rfl
  · intro b hb hnone
    rw [withdrawal_committed_in_block, hb, Option.some_bind, hnone]

/-- C7 witness: the none case at an empty table and the some case at the
scenario state. -/
theorem spec_C7_witness :
    withdrawal_committed_in_block [] emptyL2Blocks 0 = none
    ∧ ∃ w ∈ c7Table, w.tx_hash = 170
        ∧ ∃ b, c7Blocks w.l2_block_number = some b
          ∧ b.commit_l1_block_number = some 500 :=
  ⟨((spec_C7.1 [] emptyL2Blocks 0).1 (by simp)).1,
   (spec_C7.1 c7Table c7Blocks 170).2.2 500 spec_C7.2.1⟩

lemma le_foldl_max (xs : List Int) : ∀ a : Int, a ≤ xs.foldl max a := by
  induction xs with
  | nil => intro a; exact le_refl a
  | cons y ys ih => intro a; exact le_trans (le_max_left a y) (ih (max a y))

lemma mem_le_foldl_max (xs : List Int) : ∀ (a x : Int), x ∈ xs → x ≤ xs.foldl max a := by
  induction xs with
  | nil => intro a x hx; cases hx
  | cons y ys ih =>
    intro a x hx
    rcases List.mem_cons.mp hx with h | h
    · subst h; exact le_trans (le_max_right a x) (le_foldl_max ys (max a x))
    · exact ih (max a y) x h

lemma foldl_max_mem (xs : List Int) : ∀ a : Int, xs.foldl max a = a ∨ xs.foldl max a ∈ xs := by
  induction xs with
  | nil => intro a; left; rfl
  | cons y ys ih =>
    intro a
    rcases ih (max a y) with h | h
    · rcases max_choice a y with h2 | h2
      · left; rw [List.foldl_cons, h, h2]
      · right; rw [List.foldl_cons, h, h2]; exact List.mem_cons_self y ys
    · right; exact List.mem_cons_of_mem y h

lemma sqlMax_spec (l : List Int) (hne : l ≠ []) :
    ∃ m, sqlMax l = some m ∧ m ∈ l ∧ ∀ x ∈ l, x ≤ m := by
  cases l with
  | nil => exact absurd rfl hne
  | cons x xs =>
    refine ⟨xs.foldl max x, rfl, ?_, ?_⟩
    · rcases foldl_max_mem xs x with h | h
      · rw [h]; exact List.mem_cons_self x xs
      · exact List.mem_cons_of_mem x h
    · intro y hy
      rcases List.mem_cons.mp hy with h | h
      · subst h; exact le_foldl_max xs y
      · exact mem_le_foldl_max xs x y h

lemma intAsU64_le (a b : Int) (h0 : 0 ≤ a) (hab : a ≤ b) (hb : b < 2 ^ 64) :
    intAsU64 a ≤ intAsU64 b := by
  unfold intAsU64
  rw [Int.emod_eq_of_lt h0 (lt_of_le_of_lt hab hb),
    Int.emod_eq_of_lt (le_trans h0 hab) hb]
  exact Int.toNat_le_toNat hab

/-- C9: `last_l2_block_seen` returns none on the empty ledger, returns 42
after ingesting one record at block 42, and in general (for in-schema
block numbers) returns the maximum `l2_block_number` attained over all
withdrawal rows. -/
theorem spec_C9 :
    last_l2_block_seen [] = none
    ∧ (∀ sw : StoredWithdrawal, sw.event.block_number = 42 →
        last_l2_block_seen (add_withdrawals [] [sw]) = some 42)
    ∧ ∀ wt : List WithdrawalRow, wt ≠ [] →
        (∀ r ∈ wt, 0 ≤ r.l2_block_number ∧ r.l2_block_number < 2 ^ 63) →
        ∃ m, last_l2_block_seen wt = some m
          ∧ (∃ r ∈ wt, intAsU64 r.l2_block_number = m)
          ∧ ∀ r ∈ wt, intAsU64 r.l2_block_number ≤ m := by
  refine ⟨rfl, ?_, ?_⟩
  · intro sw h42
    have hone : add_withdrawals [] [sw] = [storedToRow sw] := by
      simp [add_withdrawals, addStep, hasKey]
    rw [hone]
    show some (intAsU64 (storedToRow sw).l2_block_number) = some 42
    have hblk : (storedToRow sw).l2_block_number = natAsI64 42 := by
      rw [storedToRow, h42]
    rw [hblk]
    decide
  · intro wt hne hbound
    have hmapne : wt.map WithdrawalRow.l2_block_number ≠ [] := by
      simpa using hne
    obtain ⟨m, hm, hmem, hub⟩ := sqlMax_spec _ hmapne
    rw [List.mem_map] at hmem
    obtain ⟨r, hr, hrm⟩ := hmem
    have hbm := hbound r hr
    have hm64 : m < 2 ^ 64 := by
      rw [← hrm]; exact lt_trans hbm.2 (by norm_num)
    refine ⟨intAsU64 m, ?_, ⟨r, hr, by rw [hrm]⟩, ?_⟩
    · rw [last_l2_block_seen, hm]; rfl
    · intro r2 hr2
      exact intAsU64_le _ _ (hbound r2 hr2).1
        (hub _ (List.mem_map_of_mem _ hr2)) hm64

/-- C9 witness at the concrete single-record and non-empty states. -/
theorem spec_C9_witness :
    last_l2_block_seen (add_withdrawals [] [c9Event]) = some 42
    ∧ ∃ m, last_l2_block_seen c9Table = some m
        ∧ (∃ r ∈ c9Table, intAsU64 r.l2_block_number = m)
        ∧ ∀ r ∈ c9Table, intAsU64 r.l2_block_number ≤ m :=
  ⟨spec_C9.2.1 c9Event (by decide), spec_C9.2.2 c9Table (by decide) (by decide)⟩

/-- C8: decoding the arbitrary-precision decimal produced by encoding an
unsigned 256-bit value returns the value exactly; the codec round-trip
is the identity on the `U256` domain. -/
theorem spec_C8 (v : Nat) (hv : v < 2 ^ 256) :
    bigdecimal_to_u256 (u256_to_big_decimal v) = Except.ok v := by
  unfold bigdecimal_to_u256 u256_to_big_decimal
  have h1 : ¬((v : Rat).num < 0) := by
    rw [Rat.num_natCast]
    exact not_lt.mpr (Int.natCast_nonneg v)
  have h2 : ¬((v : Rat).den ≠ 1) := by
    rw [Rat.den_natCast]
    simp
  have h3 : ¬((2 : Int) ^ 256 ≤ (v : Rat).num) := by
    rw [Rat.num_natCast]
    exact not_le.mpr (by exact_mod_cast hv)
  rw [if_neg h1, if_neg h2, if_neg h3, Rat.num_natCast, Int.toNat_natCast]

/-- C8 witness at the value 100. -/
theorem spec_C8_witness :
    (100 : Nat) < 2 ^ 256
    ∧ bigdecimal_to_u256 (u256_to_big_decimal 100) = Except.ok 100 :=
  ⟨by norm_num, spec_C8 100 (by norm_num)⟩
